import Mathlib

/- Verification of the rusty_curl request-orchestration pipeline.

The definitions below are a shallow embedding of the Rust sources:
src/cli.rs (CLI data model, validation, header parsing), src/http.rs
(HTTP result model and the concurrent dispatcher `request_many`) and
src/output.rs together with src/main.rs (result aggregation, exit code).

External collaborators are modelled as parameters:
- the network (reqwest) becomes an oracle mapping a request to an outcome;
- serde_json parsing becomes an oracle returning the parse-error message
  of an invalid JSON string, or none when the string parses;
- the Display/Debug renderers of reqwest StatusCode, HeaderMap and
  std Duration become string-valued fields of a `Render` record.
Machine integers (status codes, content lengths, durations) are Nat;
the Rust code never does arithmetic on them, so no overflow is modelled. -/

namespace RustyCurl

/-- HTTP method accepted on the command line (src/cli.rs, enum CliMethod). -/
inductive CliMethod where
  | get
  | post
  | put
  | delete
deriving DecidableEq, Repr

/-- Parsed command-line input (src/cli.rs, struct Cli). Headers are already
split into key/value pairs by the clap value parser. -/
structure Cli where
  output : Option String := none
  body : Option String := none
  json : Option String := none
  form : Option String := none
  headers : List (String × String) := []
  method : CliMethod := CliMethod.get
  latency : Bool := false
  urls : List String := []

/-- Validation outcome (src/cli.rs, struct ValidationReport). -/
structure ValidationReport where
  errors : List String := []
  warnings : List String := []
deriving DecidableEq, Repr

/-- Byte/char index of the first colon, as Rust `s.find(':')` computes it
(a colon is one byte, so the char index determines the byte split). -/
def find_colon : List Char → Option Nat
  | [] => none
  | c :: cs => if c = ':' then some 0 else (find_colon cs).map (· + 1)

/-- Rust `str::trim` on a list of chars: drop whitespace from both ends. -/
def trim_chars (l : List Char) : List Char :=
  ((l.dropWhile Char.isWhitespace).reverse.dropWhile Char.isWhitespace).reverse

/-- Header argument parser (src/cli.rs, fn parse_key_val): split at the
first colon, trim both sides, fail when no colon is present. -/
def parse_key_val (s : String) : Except String (String × String) :=
  match find_colon s.data with
  | none => Except.error ("invalid KEY:VALUE: no `:` found in `" ++ s ++ "`")
  | some pos =>
      Except.ok (String.mk (trim_chars (s.data.take pos)),
                 String.mk (trim_chars (s.data.drop (pos + 1))))

/-- URL well-formedness check (src/cli.rs, fn valid_url). -/
def valid_url (url : String) : Bool :=
  url.startsWith "http://" || url.startsWith "https://"

/-- Error text pushed for an invalid URL (src/cli.rs, validate_cli). -/
def invalid_url_msg (url : String) : String :=
  "Invalid URL " ++ url ++ ": must start with http:// or https://"

/-- Error text pushed when several body sources are given (src/cli.rs). -/
def too_many_bodies_msg : String :=
  "Can\x27t have more than one of body, json, and form"

/-- Warning text pushed for a body on GET/DELETE (src/cli.rs). -/
def body_not_allowed_msg : String :=
  "Body not allowed for GET or DELETE"

/-- Number of body sources supplied, as counted by
`[body, json, form].iter().filter(is_some).count()` in validate_cli. -/
def body_source_count (cli : Cli) : Nat :=
  ([cli.body, cli.json, cli.form].countP fun o => o.isSome)

/-- Input validation (src/cli.rs, fn validate_cli). `json_err` models
serde_json: it returns the parser message when its argument is not valid
JSON, and none when it is. Errors are pushed in source order: URL errors
first, then the multiple-body error, then the JSON error. -/
def validate_cli (json_err : String → Option String) (cli : Cli) : ValidationReport :=
  let url_errs := cli.urls.filterMap fun url =>
    if valid_url url then none else some (invalid_url_msg url)
  let warns :=
    if (cli.method = CliMethod.get ∨ cli.method = CliMethod.delete) ∧
        (cli.body.isSome ∨ cli.json.isSome ∨ cli.form.isSome) then
      [body_not_allowed_msg]
    else []
  let multi_errs := if body_source_count cli > 1 then [too_many_bodies_msg] else []
  let json_errs :=
    match cli.json with
    | some j =>
        match json_err j with
        | some e => ["JSON is not valid: " ++ e]
        | none => []
    | none => []
  { errors := url_errs ++ multi_errs ++ json_errs, warnings := warns }

/-- Post-validation gate (src/cli.rs, ValidationReport::check_and_exit):
warnings are only logged; any error aborts with `anyhow::bail!`. -/
def check_and_exit (r : ValidationReport) : Except String Unit :=
  if r.errors.isEmpty then Except.ok () else Except.error "Exiting with errors"

/-- Wire-level HTTP method (reqwest::Method as used in src/http.rs). -/
inductive Method where
  | GET
  | POST
  | PUT
  | DELETE
deriving DecidableEq, Repr

/-- Outcome of one completed HTTP exchange (src/http.rs, struct HttpResult).
Status and content length are numeric; latency is an abstract tick count. -/
structure HttpResult where
  status : Nat
  headers : List (String × String)
  content_length : Option Nat
  body : String
  latency : Nat

/-- reqwest StatusCode::is_success: the 200-299 class. -/
def is_success (status : Nat) : Bool :=
  200 ≤ status && status < 300

/-- The network oracle: what `request` (src/http.rs) returns for a given
URL, method, optional body and header list, retries already folded in. -/
def Net : Type :=
  String → Method → Option String → List (String × String) → Except String HttpResult

/-- One unit of concurrent work built by `request_many` (src/http.rs):
the per-URL async block choosing the wire method and dropping the body
on GET and DELETE. -/
def request_task (net : Net) (method : CliMethod) (body : Option String)
    (headers : List (String × String)) (url : String) : Except String HttpResult :=
  match method with
  | CliMethod.get => net url Method.GET none headers
  | CliMethod.post => net url Method.POST body headers
  | CliMethod.put => net url Method.PUT body headers
  | CliMethod.delete => net url Method.DELETE none headers

/-- The dispatcher output in submission order (src/http.rs, request_many):
`join_all` yields one outcome per URL, index-aligned with the input. -/
def request_many (net : Net) (urls : List String) (method : CliMethod)
    (body : Option String) (headers : List (String × String)) :
    List (Except String HttpResult) :=
  urls.map (request_task net method body headers)

/-- Concurrent execution of the dispatched tasks under an explicit
completion schedule: `order` lists the task indices in the order in which
they happen to finish, and each completion stores its result in the slot
of its own index, as `join_all` does. The output is read off slot by slot
in submission order. -/
def request_many_sched (net : Net) (urls : List String) (method : CliMethod)
    (body : Option String) (headers : List (String × String))
    (order : List Nat) : List (Option (Except String HttpResult)) :=
  order.foldl
    (fun acc i => acc.set i (urls.map (request_task net method body headers))[i]?)
    (List.replicate urls.length none)

/-- Renderers of the external Display/Debug implementations used by
src/output.rs: reqwest StatusCode Display, HeaderMap pretty Debug and
std Duration Debug. -/
structure Render where
  statusDisplay : Nat → String
  headersDump : List (String × String) → String
  durationDisplay : Nat → String

/-- Rust `{:?}` on Option<u64>, used for the Content-Length line. -/
def fmt_content_length : Option Nat → String
  | some n => "Some(" ++ toString n ++ ")"
  | none => "None"

/-- One output record (src/output.rs, fn write_result): the lines written
to the sink for one HttpResult, in source order, the latency line only
when requested. -/
def write_result (fmt : Render) (r : HttpResult) (output_latency : Bool) : List String :=
  ("Status: " ++ fmt.statusDisplay r.status) ::
  ("Content-Length: " ++ fmt_content_length r.content_length) ::
  ("Headers: " ++ fmt.headersDump r.headers) ::
  ("Body:\n" ++ r.body) ::
  (if output_latency then ["Latency: " ++ fmt.durationDisplay r.latency] else [])

/-- The aggregation step applied to one (url, outcome) pair inside the
write_results loop (src/output.rs): extends the primary sink, the error
channel (eprintln) and the had_failure flag. -/
def write_results_step (fmt : Render) (latency : Bool)
    (acc : List String × List String × Bool)
    (p : String × Except String HttpResult) : List String × List String × Bool :=
  match p.2 with
  | Except.ok resp =>
      (acc.1 ++ write_result fmt resp latency,
       acc.2.1 ++ (if is_success resp.status then []
                   else ["Request to " ++ p.1 ++ " returned " ++ fmt.statusDisplay resp.status]),
       acc.2.2 || !is_success resp.status)
  | Except.error e =>
      (acc.1, acc.2.1 ++ ["Request to " ++ p.1 ++ " failed: " ++ e], true)

/-- Result aggregator (src/output.rs, fn write_results): walks the zipped
urls/results, returning the primary-sink lines, the error-channel lines
and the had_failure flag. -/
def write_results (fmt : Render) (urls : List String)
    (results : List (Except String HttpResult)) (latency : Bool) :
    List String × List String × Bool :=
  (urls.zip results).foldl (write_results_step fmt latency) ([], [], false)

/-- Process exit code chosen in main (src/main.rs): exit(1) on a failed
batch, 0 otherwise. -/
def exit_code (had_failure : Bool) : Nat :=
  if had_failure then 1 else 0

/-- Body selection in main (src/main.rs):
`cli.json.as_deref().or(cli.body.as_deref()).or(cli.form.as_deref())`. -/
def effective_body (cli : Cli) : Option String :=
  (cli.json.or cli.body).or cli.form

/-- Observable result of a full run that passed validation. -/
structure RunTrace where
  requested_urls : List String
  sink : List String
  err_channel : List String
  exitCode : Nat

/-- The orchestration pipeline of main (src/main.rs): validate and gate,
then build the client, dispatch all URLs, aggregate, and pick the exit
code. An `Except.error` run aborted before any request was issued. -/
def main_run (fmt : Render) (json_err : String → Option String) (net : Net)
    (cli : Cli) : Except String RunTrace :=
  match check_and_exit (validate_cli json_err cli) with
  | Except.error e => Except.error e
  | Except.ok _ =>
      let body := effective_body cli
      let results := request_many net cli.urls cli.method body cli.headers
      let out := write_results fmt cli.urls results cli.latency
      Except.ok ⟨cli.urls, out.1, out.2.1, exit_code out.2.2⟩

/-- The wire method chosen for each CLI method by the match inside
request_many (src/http.rs lines 53-58). -/
def method_of : CliMethod → Method
  | CliMethod.get => Method.GET
  | CliMethod.post => Method.POST
  | CliMethod.put => Method.PUT
  | CliMethod.delete => Method.DELETE

/-- A trivial renderer, used to instantiate theorems at concrete inputs. -/
def render0 : Render :=
  ⟨fun n => toString n, fun _ => "", fun _ => ""⟩

/-- A network oracle that fails every request, used for instantiation. -/
def net0 : Net := fun url _ _ _ => Except.error url

/- Helper lemmas on strings and on find_colon. -/

lemma data_append (a b : String) : (a ++ b).data = a.data ++ b.data := by
  cases a; cases b; rfl

lemma ne_of_head (a b : String) (c d : Char) (ha : a.data.head? = some c)
    (hb : b.data.head? = some d) (hcd : c ≠ d) : a ≠ b := by
  intro h
  subst h
  rw [ha] at hb
  exact hcd (Option.some.inj hb)

lemma invalid_url_msg_head (u : String) : (invalid_url_msg u).data.head? = some 'I' := by
  cases u; rfl

lemma too_many_bodies_msg_head : too_many_bodies_msg.data.head? = some 'C' := rfl

lemma body_not_allowed_msg_head : body_not_allowed_msg.data.head? = some 'B' := rfl

lemma json_invalid_msg_head (e : String) :
    ("JSON is not valid: " ++ e).data.head? = some 'J' := by
  cases e; rfl

lemma invalid_url_msg_inj {u v : String} (h : invalid_url_msg u = invalid_url_msg v) :
    u = v := by
  have hd := congrArg String.data h
  simp only [invalid_url_msg, data_append, List.append_assoc] at hd
  have h2 := List.append_cancel_left hd
  have h3 := List.append_cancel_right h2
  cases u; cases v
  exact congrArg String.mk h3

lemma find_colon_append (l₁ l₂ : List Char) (h : ':' ∉ l₁) :
    find_colon (l₁ ++ ':' :: l₂) = some l₁.length := by
  induction l₁ with
  | nil => simp [find_colon]
  | cons c cs ih =>
      have hc : ¬(c = ':') := fun e => h (e ▸ List.mem_cons_self c cs)
      have hcs : ':' ∉ cs := fun m => h (List.mem_cons_of_mem c m)
      simp [find_colon, hc, ih hcs]

lemma find_colon_eq_none_iff (l : List Char) : find_colon l = none ↔ ':' ∉ l := by
  induction l with
  | nil => simp [find_colon]
  | cons c cs ih =>
      by_cases hc : c = ':'
      · subst hc
        simp [find_colon]
      · simp [find_colon, hc, ih, Ne.symm hc]

/-- C9: parse_key_val trims both sides of the first-colon split, accepts a
bare colon as an empty key and value, and rejects a colon-free string. -/
theorem parse_key_val_examples :
    parse_key_val "Key: Value  " = Except.ok ("Key", "Value") ∧
    parse_key_val ":" = Except.ok ("", "") ∧
    parse_key_val "novaluehere" =
      Except.error "invalid KEY:VALUE: no `:` found in `novaluehere`" :=
  ⟨rfl, rfl, rfl⟩

/-- C10: on input containing a colon, parse_key_val splits at the first
colon (so the value keeps any later colons), and the error branch is
reached exactly on colon-free input. -/
theorem parse_key_val_splits_at_first_colon (l₁ l₂ : List Char) (h : ':' ∉ l₁) :
    parse_key_val (String.mk (l₁ ++ ':' :: l₂)) =
      Except.ok (String.mk (trim_chars l₁), String.mk (trim_chars l₂)) ∧
    (∀ s : String, (∃ e, parse_key_val s = Except.error e) ↔ ':' ∉ s.data) := by
  constructor
  · have hsplit : l₁ ++ ':' :: l₂ = (l₁ ++ [':']) ++ l₂ := by simp
    have hlen : (l₁ ++ [':']).length = l₁.length + 1 := by simp
    unfold parse_key_val
    rw [show (String.mk (l₁ ++ ':' :: l₂)).data = l₁ ++ ':' :: l₂ from rfl,
      find_colon_append l₁ l₂ h]
    have htake : (l₁ ++ ':' :: l₂).take l₁.length = l₁ := List.take_left l₁ (':' :: l₂)
    have hdrop : (l₁ ++ ':' :: l₂).drop (l₁.length + 1) = l₂ := by
      rw [hsplit, ← hlen]
      exact List.drop_left (l₁ ++ [':']) l₂
    dsimp only
    rw [htake, hdrop]
  · intro s
    rcases hf : find_colon s.data with _ | pos
    · simp only [parse_key_val, hf]
      exact ⟨fun _ => (find_colon_eq_none_iff s.data).mp hf, fun _ => ⟨_, rfl⟩⟩
    · simp only [parse_key_val, hf]
      constructor
      · rintro ⟨e, he⟩
        exact absurd he (by simp)
      · intro hn
        rw [(find_colon_eq_none_iff s.data).mpr hn] at hf
        cases hf

/-- Witness for C10 at a concrete input whose value contains two more
colons after the splitting one. -/
theorem parse_key_val_splits_at_first_colon_witness :
    parse_key_val "Host: a:b:c" = Except.ok ("Host", "a:b:c") :=
  (parse_key_val_splits_at_first_colon "Host".data " a:b:c".data (by decide)).1

/- Helper lemmas on validate_cli. -/

lemma mem_url_errs {urls : List String} {m : String}
    (h : m ∈ urls.filterMap fun url =>
      if valid_url url then none else some (invalid_url_msg url)) :
    ∃ u, m = invalid_url_msg u := by
  rcases List.mem_filterMap.mp h with ⟨u, _, hu⟩
  by_cases hv : valid_url u = true
  · simp [hv] at hu
  · simp only [hv, if_false, ite_false] at hu
    exact ⟨u, (Option.some.inj hu).symm⟩

lemma beq_invalid_url_msg (v u : String) :
    (invalid_url_msg v == invalid_url_msg u) = (v == u) := by
  by_cases he : v = u
  · subst he; simp
  · rw [beq_eq_false_iff_ne.mpr (fun h => he (invalid_url_msg_inj h)),
      beq_eq_false_iff_ne.mpr he]

lemma count_url_errs (urls : List String) (u : String) :
    ((urls.filterMap fun url =>
        if valid_url url
        then none else some (invalid_url_msg url)).count (invalid_url_msg u)) =
      if valid_url u then 0 else urls.count u := by
  induction urls with
  | nil => simp
  | cons v rest ih =>
      rw [List.filterMap_cons]
      by_cases hv : valid_url v = true
      · by_cases hu : valid_url u = true
        · simpa [hv, hu] using ih
        · have hne : (v == u) = false :=
            beq_eq_false_iff_ne.mpr fun e => hu (e ▸ hv)
          simp only [hv, if_true, ite_true, hu, if_false, ite_false,
            List.count_cons, hne] at ih ⊢
          simp [ih]
      · by_cases hu : valid_url u = true
        · have hvu : (v == u) = false := beq_eq_false_iff_ne.mpr fun e => hv (e ▸ hu)
          simp only [if_neg hv]
          rw [if_pos hu, List.count_cons, beq_invalid_url_msg, hvu, ih, if_pos hu]
          simp
        · simp only [if_neg hv]
          rw [if_neg hu, List.count_cons, List.count_cons, beq_invalid_url_msg,
            ih, if_neg hu]

lemma count_multi_errs (cli : Cli) (m : String) (hm : m ≠ too_many_bodies_msg) :
    ((if body_source_count cli > 1 then [too_many_bodies_msg] else []).count m) = 0 := by
  by_cases hb : body_source_count cli > 1
  · simp [hb, List.count_singleton, beq_eq_false_iff_ne.mpr (fun e => hm e.symm)]
  · simp [hb]

lemma json_errs_shape (json_err : String → Option String) (j : Option String) {m : String}
    (h : m ∈ (match j with
      | some js =>
          match json_err js with
          | some e => ["JSON is not valid: " ++ e]
          | none => ([] : List String)
      | none => [])) :
    ∃ e, m = "JSON is not valid: " ++ e := by
  rcases j with _ | js
  · exact absurd h (List.not_mem_nil m)
  · rcases hje : json_err js with _ | e
    · simp only [hje] at h
      exact absurd h (List.not_mem_nil m)
    · simp only [hje] at h
      exact ⟨e, List.mem_singleton.mp h⟩

/-- C6: the errors of validate_cli contain the multiple-body-source
message exactly once when more than one of body/json/form is supplied,
and never otherwise. -/
theorem validate_cli_multiple_bodies_error (json_err : String → Option String) (cli : Cli) :
    ((validate_cli json_err cli).errors.count too_many_bodies_msg) =
      if body_source_count cli > 1 then 1 else 0 := by
  show ((_ ++ _ ++ _ : List String).count too_many_bodies_msg) = _
  rw [List.count_append, List.count_append]
  have h1 : ((cli.urls.filterMap fun url =>
      if valid_url url
      then none else some (invalid_url_msg url)).count too_many_bodies_msg) = 0 := by
    rw [List.count_eq_zero]
    intro hmem
    rcases mem_url_errs hmem with ⟨u, he⟩
    exact ne_of_head _ _ 'I' 'C' (invalid_url_msg_head u) too_many_bodies_msg_head
      (by decide) he.symm
  have h2 : ((if body_source_count cli > 1
      then [too_many_bodies_msg] else []).count too_many_bodies_msg) =
      if body_source_count cli > 1 then 1 else 0 := by
    by_cases hb : body_source_count cli > 1 <;> simp [hb]
  have h3 : ((match cli.json with
      | some j =>
          match json_err j with
          | some e => ["JSON is not valid: " ++ e]
          | none => ([] : List String)
      | none => []).count too_many_bodies_msg) = 0 := by
    rw [List.count_eq_zero]
    intro hmem
    rcases json_errs_shape json_err cli.json hmem with ⟨e, he⟩
    exact ne_of_head _ _ 'J' 'C' (json_invalid_msg_head e) too_many_bodies_msg_head
      (by decide) he.symm
  rw [h1, h2, h3]
  omega

/-- C8: validate_cli reports the invalid-URL error for a URL exactly as
often as that URL occurs in the batch when it lacks the http prefix, and
never when it has one. -/
theorem validate_cli_invalid_url_errors (json_err : String → Option String)
    (cli : Cli) (u : String) :
    ((validate_cli json_err cli).errors.count (invalid_url_msg u)) =
      if valid_url u then 0 else cli.urls.count u := by
  show ((_ ++ _ ++ _ : List String).count (invalid_url_msg u)) = _
  rw [List.count_append, List.count_append]
  have h2 : ((if body_source_count cli > 1
      then [too_many_bodies_msg] else []).count (invalid_url_msg u)) = 0 :=
    count_multi_errs cli _ (ne_of_head _ _ 'I' 'C' (invalid_url_msg_head u)
      too_many_bodies_msg_head (by decide))
  have h3 : ((match cli.json with
      | some j =>
          match json_err j with
          | some e => ["JSON is not valid: " ++ e]
          | none => ([] : List String)
      | none => []).count (invalid_url_msg u)) = 0 := by
    rw [List.count_eq_zero]
    intro hmem
    rcases json_errs_shape json_err cli.json hmem with ⟨e, he⟩
    exact ne_of_head _ _ 'J' 'I' (json_invalid_msg_head e) (invalid_url_msg_head u)
      (by decide) he.symm
  rw [count_url_errs, h2, h3]
  omega

/-- C7: validate_cli emits the body-not-allowed warning exactly once when
the method is GET or DELETE and some body source is present (and never
otherwise), and that text never appears among the errors. -/
theorem validate_cli_body_warning (json_err : String → Option String) (cli : Cli) :
    ((validate_cli json_err cli).warnings =
      if (cli.method = CliMethod.get ∨ cli.method = CliMethod.delete) ∧
          (cli.body.isSome ∨ cli.json.isSome ∨ cli.form.isSome) then
        [body_not_allowed_msg]
      else []) ∧
    body_not_allowed_msg ∉ (validate_cli json_err cli).errors := by
  constructor
  · rfl
  · intro hmem
    have hmem : body_not_allowed_msg ∈ (_ ++ _ ++ _ : List String) := hmem
    rcases List.mem_append.mp hmem with hmem | hmem
    · rcases List.mem_append.mp hmem with hmem | hmem
      · rcases mem_url_errs hmem with ⟨v, he⟩
        exact ne_of_head _ _ 'I' 'B' (invalid_url_msg_head v) body_not_allowed_msg_head
          (by decide) he.symm
      · by_cases hb : body_source_count cli > 1
        · rw [if_pos hb] at hmem
          exact ne_of_head _ _ 'C' 'B' too_many_bodies_msg_head body_not_allowed_msg_head
            (by decide) (List.mem_singleton.mp hmem).symm
        · rw [if_neg hb] at hmem
          cases hmem
    · rcases json_errs_shape json_err cli.json hmem with ⟨e, he⟩
      exact ne_of_head _ _ 'J' 'B' (json_invalid_msg_head e) body_not_allowed_msg_head
        (by decide) he.symm

/- Helper lemmas for the check_and_exit gate. -/

lemma check_and_exit_error_iff (r : ValidationReport) :
    (∃ e, check_and_exit r = Except.error e) ↔ r.errors ≠ [] := by
  unfold check_and_exit
  rcases hr : r.errors with _ | ⟨a, l⟩ <;> simp [hr, List.isEmpty]

lemma check_and_exit_ok_of_no_errors (r : ValidationReport) (h : r.errors = []) :
    check_and_exit r = Except.ok () := by
  unfold check_and_exit
  simp [h, List.isEmpty]

/-- C3: check_and_exit fails exactly when the error list is non-empty; a
warnings-only report passes, and main aborts before issuing any request
exactly when validation produced an error. -/
theorem check_and_exit_blocks_iff_errors (fmt : Render)
    (json_err : String → Option String) (net : Net) (cli : Cli)
    (r : ValidationReport) :
    ((∃ e, check_and_exit r = Except.error e) ↔ r.errors ≠ []) ∧
    (r.errors = [] → check_and_exit r = Except.ok ()) ∧
    ((∃ e, main_run fmt json_err net cli = Except.error e) ↔
      (validate_cli json_err cli).errors ≠ []) := by
  refine ⟨check_and_exit_error_iff r, check_and_exit_ok_of_no_errors r, ?_, ?_⟩
  · rintro ⟨e, he⟩
    unfold main_run at he
    cases hE : check_and_exit (validate_cli json_err cli) with
    | error e2 => exact (check_and_exit_error_iff _).mp ⟨e2, hE⟩
    | ok u =>
        rw [hE] at he
        exact absurd he (by simp)
  · intro hne
    obtain ⟨e, he⟩ := (check_and_exit_error_iff _).mpr hne
    refine ⟨e, ?_⟩
    unfold main_run
    rw [he]

/-- Witness for C3: a report with a warning and no error passes the gate. -/
theorem check_and_exit_blocks_iff_errors_witness :
    check_and_exit ⟨[], ["some warning"]⟩ = Except.ok () :=
  (check_and_exit_blocks_iff_errors render0 (fun _ => none) net0 {}
    ⟨[], ["some warning"]⟩).2.1 rfl

/- Helper lemmas for the scheduled dispatcher: a fold that stores each
completed task at its own index. -/

lemma foldl_set_length {β : Type} (order : List Nat) (g : Nat → β) (acc : List β) :
    (order.foldl (fun a i => a.set i (g i)) acc).length = acc.length := by
  induction order generalizing acc with
  | nil => rfl
  | cons j rest ih => simp [ih, List.length_set]

lemma foldl_set_getElem_not_mem {β : Type} (order : List Nat) (g : Nat → β)
    (acc : List β) (i : Nat) (h : i ∉ order) :
    (order.foldl (fun a j => a.set j (g j)) acc)[i]? = acc[i]? := by
  induction order generalizing acc with
  | nil => rfl
  | cons j rest ih =>
      have hji : ¬(j = i) := fun e => h (e ▸ List.mem_cons_self j rest)
      rw [List.foldl_cons, ih _ (fun m => h (List.mem_cons_of_mem j m)),
        List.getElem?_set, if_neg hji]

lemma foldl_set_getElem_mem {β : Type} (order : List Nat) (g : Nat → β)
    (acc : List β) (i : Nat) (hm : i ∈ order) (hlt : i < acc.length) :
    (order.foldl (fun a j => a.set j (g j)) acc)[i]? = some (g i) := by
  induction order generalizing acc with
  | nil => cases hm
  | cons j rest ih =>
      by_cases hr : i ∈ rest
      · rw [List.foldl_cons]
        exact ih _ hr (by simpa [List.length_set] using hlt)
      · have hij : i = j := by
          rcases List.mem_cons.mp hm with h | h
          · exact h
          · exact absurd h hr
        subst hij
        rw [List.foldl_cons, foldl_set_getElem_not_mem rest g _ i hr,
          List.getElem?_set, if_pos rfl, if_pos hlt]

/-- C1: whatever order the scheduled tasks complete in (any completion
order covering every index), the dispatcher output has exactly one slot
per input URL and slot i holds the executor result for URL i. -/
theorem request_many_sched_ordered (net : Net) (urls : List String)
    (method : CliMethod) (body : Option String)
    (headers : List (String × String)) (order : List Nat)
    (hcov : ∀ i, i < urls.length → i ∈ order) :
    (request_many_sched net urls method body headers order).length = urls.length ∧
    ∀ i (h : i < urls.length),
      (request_many_sched net urls method body headers order)[i]? =
        some (some (request_task net method body headers (urls.get ⟨i, h⟩))) := by
  constructor
  · unfold request_many_sched
    rw [foldl_set_length order
      (fun i => (urls.map (request_task net method body headers))[i]?)]
    exact List.length_replicate urls.length none
  · intro i h
    unfold request_many_sched
    rw [foldl_set_getElem_mem order
      (fun i => (urls.map (request_task net method body headers))[i]?)
      (List.replicate urls.length none) i (hcov i h)
      (by simpa [List.length_replicate] using h)]
    rw [List.getElem?_map, List.getElem?_eq_getElem h]
    rfl

/-- Witness for C1: two URLs whose completion order [1, 0] is the reverse
of the submission order still land in submission-order slots. -/
theorem request_many_sched_ordered_witness :
    (request_many_sched net0 ["http://a", "http://b"] CliMethod.get none [] [1, 0]).length = 2 ∧
    (request_many_sched net0 ["http://a", "http://b"] CliMethod.get none [] [1, 0])[0]? =
      some (some (Except.error "http://a")) ∧
    (request_many_sched net0 ["http://a", "http://b"] CliMethod.get none [] [1, 0])[1]? =
      some (some (Except.error "http://b")) := by
  have h := request_many_sched_ordered net0 ["http://a", "http://b"]
    CliMethod.get none [] [1, 0] (by decide)
  exact ⟨h.1, h.2 0 (by decide), h.2 1 (by decide)⟩

/-- C4: GET and DELETE tasks reach the executor with no body even when
one was supplied, POST and PUT tasks carry the body selected in main, and
that selection takes json first, then the raw body, then the form. -/
theorem dispatch_body_policy (net : Net) (cli : Cli) (url : String) :
    ((cli.method = CliMethod.get ∨ cli.method = CliMethod.delete) →
      request_task net cli.method (effective_body cli) cli.headers url =
        net url (method_of cli.method) none cli.headers) ∧
    ((cli.method = CliMethod.post ∨ cli.method = CliMethod.put) →
      request_task net cli.method (effective_body cli) cli.headers url =
        net url (method_of cli.method) (effective_body cli) cli.headers) ∧
    effective_body cli =
      (match cli.json, cli.body, cli.form with
       | some j, _, _ => some j
       | none, some b, _ => some b
       | none, none, f => f) := by
  refine ⟨?_, ?_, ?_⟩
  · rintro (hm | hm) <;> rw [hm] <;> rfl
  · rintro (hm | hm) <;> rw [hm] <;> rfl
  · unfold effective_body
    rcases cli.json with _ | j <;> rcases cli.body with _ | b <;>
      rcases cli.form with _ | f <;> rfl

/-- Witness for C4: a GET with a raw body still reaches the executor with
no body. -/
theorem dispatch_body_policy_witness :
    request_task net0 CliMethod.get
        (effective_body { body := some "payload", urls := ["http://a"] }) [] "http://a" =
      net0 "http://a" Method.GET none [] :=
  (dispatch_body_policy net0 { body := some "payload", urls := ["http://a"] }
    "http://a").1 (Or.inl rfl)

/- Helper lemmas for the aggregator fold. -/

lemma write_results_foldl_flag (fmt : Render) (latency : Bool)
    (l : List (String × Except String HttpResult))
    (acc : List String × List String × Bool) :
    (l.foldl (write_results_step fmt latency) acc).2.2 =
      (acc.2.2 || l.any fun p =>
        match p.2 with
        | Except.error _ => true
        | Except.ok r => !is_success r.status) := by
  induction l generalizing acc with
  | nil => simp
  | cons p rest ih =>
      rcases p with ⟨url, res⟩
      rcases res with e | r
      · rw [List.foldl_cons, ih]
        simp [write_results_step]
      · rw [List.foldl_cons, ih]
        simp [write_results_step, Bool.or_assoc]

lemma write_results_foldl_sink (fmt : Render) (latency : Bool)
    (l : List (String × Except String HttpResult))
    (acc : List String × List String × Bool) :
    (l.foldl (write_results_step fmt latency) acc).1 =
      acc.1 ++ (l.flatMap fun p =>
        match p.2 with
        | Except.ok r => write_result fmt r latency
        | Except.error _ => []) := by
  induction l generalizing acc with
  | nil => simp
  | cons p rest ih =>
      rcases p with ⟨url, res⟩
      rcases res with e | r
      · rw [List.foldl_cons, ih]
        simp [write_results_step]
      · rw [List.foldl_cons, ih]
        simp [write_results_step, List.append_assoc]

lemma zip_any_snd {α β : Type} (l₁ : List α) (l₂ : List β) (p : β → Bool)
    (h : l₂.length = l₁.length) :
    ((l₁.zip l₂).any fun q => p q.2) = l₂.any p := by
  induction l₁ generalizing l₂ with
  | nil =>
      cases l₂ with
      | nil => rfl
      | cons b bs => simp at h
  | cons a as ih =>
      cases l₂ with
      | nil => simp at h
      | cons b bs =>
          simp only [List.zip_cons_cons, List.any_cons]
          rw [ih bs (by simpa using h)]

/-- C2: the had_failure flag of write_results is true exactly when some
outcome is a terminal error or a non-2xx result, and the process exit
code derived from it is zero exactly when no such outcome exists. -/
theorem write_results_failure_iff (fmt : Render) (urls : List String)
    (results : List (Except String HttpResult)) (latency : Bool)
    (h : results.length = urls.length) :
    ((write_results fmt urls results latency).2.2 =
      results.any fun o =>
        match o with
        | Except.error _ => true
        | Except.ok r => !is_success r.status) ∧
    (exit_code (write_results fmt urls results latency).2.2 = 0 ↔
      (results.any fun o =>
        match o with
        | Except.error _ => true
        | Except.ok r => !is_success r.status) = false) := by
  have hflag : (write_results fmt urls results latency).2.2 =
      results.any fun o =>
        match o with
        | Except.error _ => true
        | Except.ok r => !is_success r.status := by
    unfold write_results
    rw [write_results_foldl_flag, Bool.false_or]
    exact zip_any_snd urls results
      (fun o =>
        match o with
        | Except.error _ => true
        | Except.ok r => !is_success r.status) h
  refine ⟨hflag, ?_⟩
  rw [hflag]
  cases results.any fun o =>
      match o with
      | Except.error _ => true
      | Except.ok r => !is_success r.status <;>
    simp [exit_code]

/-- Witness for C2: a single terminal error makes the flag true and the
exit code non-zero. -/
theorem write_results_failure_iff_witness :
    (write_results render0 ["http://a"] [Except.error "boom"] false).2.2 = true :=
  ((write_results_failure_iff render0 ["http://a"] [Except.error "boom"] false rfl).1).trans rfl

/-- C5: the primary sink of write_results holds, for each Ok outcome in
order, exactly the record Status line, Content-Length line, Headers dump,
Body with the raw text, and a Latency line present exactly when the flag
is on; Err outcomes contribute nothing to the sink. -/
theorem write_results_record_lines (fmt : Render) (urls : List String)
    (results : List (Except String HttpResult)) (latency : Bool) :
    (write_results fmt urls results latency).1 =
      (urls.zip results).flatMap fun p =>
        match p.2 with
        | Except.ok r =>
            ("Status: " ++ fmt.statusDisplay r.status) ::
            ("Content-Length: " ++ fmt_content_length r.content_length) ::
            ("Headers: " ++ fmt.headersDump r.headers) ::
            ("Body:\n" ++ r.body) ::
            (if latency then ["Latency: " ++ fmt.durationDisplay r.latency] else [])
        | Except.error _ => [] := by
  unfold write_results
  rw [write_results_foldl_sink, List.nil_append]
  rfl

end RustyCurl
